import Mathlib

/-!
# s3get: list, measure and download objects of an S3 bucket

A shallow embedding of `main.go`.  Go strings are sequences of bytes; the code
only ever compares single bytes against `/` and `.`, so a string is modelled
as a list of characters.  The storage client (`minio`), the file system
(`os.Stat`) and the log stream are external collaborators: the client and the
file system are parameters of the operations, and every interaction with them
is recorded as an `Event` in the trace an operation returns.
-/

namespace S3Get

/-- A Go `string`. -/
abbrev Str := List Char

/-- A Go `error` value: `none` is `nil`, `some msg` is a non-nil error. -/
abbrev GoError := Option Str

/-! ## Library functions used by the program -/

/-- Conversion `uint64(x)` of a signed 64-bit integer: the value modulo `2^64`. -/
def toUint64 (x : Int) : Nat := (x % 2 ^ 64).toNat

/-- Go string indexing `s[i]` with a signed index: `none` is the run-time panic
"index out of range". -/
def index (s : Str) (i : Int) : Option Char :=
  if 0 ≤ i ∧ i < s.length then s.get? i.toNat else none

/-- `strings.Replace(s, old, "", 1)` for a non-empty `old`: the leftmost
occurrence of `old` in `s` is cut out, and `s` is returned when there is none. -/
def cutFirst (old : Str) : Str → Str
  | [] => []
  | c :: t => if old.isPrefixOf (c :: t) then (c :: t).drop old.length else c :: cutFirst old t

/-- `strings.Replace(s, old, "", 1)`: Go returns `s` itself when `old` equals
the replacement (here the empty string), and otherwise replaces the first
occurrence of `old`. -/
def stringsReplace1 (s old : Str) : Str :=
  if old = [] then s else cutFirst old s

/-- The backtracking of `filepath.Clean` at a `..` element, as a new write
index: starting from `w` (already decremented once by the caller) the index
moves left while it is above `dotdot` and the byte at it is not a separator. -/
def backtrack (out : Str) (dotdot : Nat) : Nat → Nat
  | 0 => 0
  | w + 1 =>
    if dotdot < w + 1 ∧ out.get? (w + 1) ≠ some '/' then backtrack out dotdot w else w + 1

/-- The state of the scan of `filepath.Clean`: the output buffer and the index
`dotdot` below which a `..` element cannot backtrack. -/
structure CleanState where
  out : Str
  dotdot : Nat
deriving DecidableEq, Repr

/-- The `..` case of `filepath.Clean`. -/
def cleanDotDot (rooted : Bool) (s : CleanState) : CleanState :=
  if s.dotdot < s.out.length then
    { s with out := s.out.take (backtrack s.out s.dotdot (s.out.length - 1)) }
  else if !rooted then
    let o := (if 0 < s.out.length then s.out ++ ['/'] else s.out) ++ ['.', '.']
    { out := o, dotdot := o.length }
  else s

/-- The separator `filepath.Clean` writes before a real path element. -/
def cleanSep (rooted : Bool) (s : CleanState) : CleanState :=
  if (rooted && s.out.length != 1) || (!rooted && s.out.length != 0) then
    { s with out := s.out ++ ['/'] }
  else s

/-- The main loop of `filepath.Clean` over the unread part of the path.  With
`inElem = false` the scan is at the start of a path element and chooses among
the four cases of the Go `switch` (separator, `.`, `..`, real element); with
`inElem = true` it is inside the copy loop of a real element, which ends at
the next separator or at the end of the path. -/
def cleanLoop (rooted : Bool) : Bool → Str → CleanState → CleanState
  | _, [], s => s
  | true, c :: t, s =>
    if c = '/' then cleanLoop rooted false t s
    else cleanLoop rooted true t { s with out := s.out ++ [c] }
  | false, [c], s =>
    if c = '/' then s
    else if c = '.' then s
    else { (cleanSep rooted s) with out := (cleanSep rooted s).out ++ [c] }
  | false, c :: d :: u, s =>
    if c = '/' then cleanLoop rooted false (d :: u) s
    else if c = '.' ∧ d = '/' then cleanLoop rooted false (d :: u) s
    else if c = '.' ∧ d = '.' ∧ (u = [] ∨ u.head? = some '/') then
      cleanLoop rooted false u (cleanDotDot rooted s)
    else cleanLoop rooted true (d :: u) { (cleanSep rooted s) with out := (cleanSep rooted s).out ++ [c] }

/-- Whether a path is rooted: its first byte is a separator. -/
def isRooted (path : Str) : Bool := path.head? = some '/'

/-- The buffer of `filepath.Clean` when the whole path has been read. -/
def cleanBuf (path : Str) : CleanState :=
  cleanLoop (isRooted path) false path
    (if isRooted path then { out := ['/'], dotdot := 1 } else { out := [], dotdot := 0 })

/-- `filepath.Clean` on Unix: the empty path and an empty result become `.`. -/
def filepathClean (path : Str) : Str :=
  if (cleanBuf path).out = [] then ['.'] else (cleanBuf path).out

/-- `filepath.Join(a, b)` on Unix: the elements from the first non-empty one on
are joined with a separator and cleaned; all empty gives the empty string. -/
def filepathJoin (a b : Str) : Str :=
  if a ≠ [] then filepathClean (a ++ '/' :: b)
  else if b ≠ [] then filepathClean b
  else []

/-! ## The external collaborators -/

/-- One record of the listing channel (`minio.ObjectInfo`): the key, the size
(a signed 64-bit integer) and the error the record may carry. -/
structure ObjectInfo where
  Key : Str
  Size : Int
  Err : GoError
deriving DecidableEq, Repr

/-- The error of `os.Stat`, as far as `os.IsNotExist` tells errors apart. -/
inductive StatError where
  | notExist
  | other
deriving DecidableEq, Repr

/-- `os.IsNotExist(err)` on the error result of `os.Stat`. -/
def IsNotExist : Option StatError → Bool
  | some StatError.notExist => true
  | _ => false

/-- The storage client and the file system, over a file-system state `σ`.
`ListObjectsV2 bucket prefix recursive` is the finite sequence of records the
listing channel delivers before it is closed; `FGetObject fs bucket object
path` downloads one object to a local path and answers the new file-system
state and its error; `Stat fs path` is the error result of `os.Stat`. -/
structure Env (σ : Type) where
  ListObjectsV2 : Str → Str → Bool → List ObjectInfo
  FGetObject : σ → Str → Str → Str → σ × GoError
  Stat : σ → Str → Option StatError

/-- An argument of a log call. -/
inductive LogArg where
  | str (s : Str)
  | bytes (n : Nat)
  | err (e : Str)
deriving DecidableEq, Repr

/-- What an operation does to the outside world, in order. `bytes n` in a log
line stands for `humanize.Bytes(n)`. -/
inductive Event where
  | println (args : List LogArg)
  | fatalln (args : List LogArg)
  | newClient
  | listObjectsV2 (bucketName pfx : Str) (isRecursive : Bool)
  | stat (path : Str)
  | fGetObject (bucketName objectName filePath : Str)
deriving DecidableEq, Repr

/-! ## The program -/

/-- `getObject` of `main.go`: the error of `client.FGetObject`, whichever
branch returns it. -/
def getObject {σ : Type} (env : Env σ) (fs : σ) (bucketName objectName destinationPath : Str) :
    σ × GoError :=
  let r := env.FGetObject fs bucketName objectName destinationPath
  match r.2 with
  | some e => (r.1, some e)
  | none => (r.1, r.2)

/-- The statement `if prefix[len(prefix)-1] != '/' { prefix += "/" }` of
`listDirectories`, `getDirectories` and `getUsage`: the new value of the
variable, or `none` when the index expression panics. -/
def addSlash (pfx : Str) : Option Str :=
  match index pfx ((pfx.length : Int) - 1) with
  | none => none
  | some c => if c ≠ '/' then some (pfx ++ ['/']) else some pfx

/-- The `range` loop of `listDirectories`. `err` is the variable declared at
the top of the function; both `return` statements return it. -/
def listLoop (err : GoError) : List ObjectInfo → List Event × GoError
  | [] => ([], err)
  | object :: rest =>
    match object.Err with
    | some e => ([Event.println [LogArg.err e]], err)
    | none =>
      let r := listLoop err rest
      (Event.println [LogArg.str object.Key, LogArg.str " - ".toList,
          LogArg.bytes (toUint64 object.Size)] :: r.1, r.2)

/-- `listDirectories` of `main.go`: the trace and the returned error, or
`none` when the function panics. -/
def listDirectories {σ : Type} (env : Env σ) (bucketName pfx : Str) (isRecursive : Bool) :
    Option (List Event × GoError) :=
  let err : GoError := none
  let l := Event.println [LogArg.str "listDirectories:".toList, LogArg.str bucketName, LogArg.str pfx]
  match addSlash pfx with
  | none => none
  | some pfx =>
    let r := listLoop err (env.ListObjectsV2 bucketName pfx isRecursive)
    some (l :: Event.listObjectsV2 bucketName pfx isRecursive :: r.1, r.2)

/-- The `range` loop of `getUsage`, from the running `total` (an unsigned
64-bit integer, so the addition wraps). -/
def usageLoop (err : GoError) : List ObjectInfo → Nat → List Event × Nat × GoError
  | [], total => ([], total, err)
  | object :: rest, total =>
    match object.Err with
    | some e => ([Event.println [LogArg.err e]], 0, err)
    | none => usageLoop err rest ((total + toUint64 object.Size) % 2 ^ 64)

/-- `getUsage` of `main.go`: the trace, the returned total and the returned
error, or `none` when the function panics. -/
def getUsage {σ : Type} (env : Env σ) (bucketName pfx : Str) : Option (List Event × Nat × GoError) :=
  let total : Nat := 0
  let err : GoError := none
  match addSlash pfx with
  | none => none
  | some pfx =>
    let isRecursive := true
    let r := usageLoop err (env.ListObjectsV2 bucketName pfx isRecursive) total
    some (Event.listObjectsV2 bucketName pfx isRecursive :: r.1, r.2.1, r.2.2)

/-- `objToFileName` of `main.go`. -/
def objToFileName (path pfx folder : Str) : Str :=
  let np := stringsReplace1 path pfx
  filepathJoin folder np

/-- `fileExists` of `main.go`: false only when `os.Stat` fails with a
not-exist error. -/
def fileExists {σ : Type} (env : Env σ) (fs : σ) (path : Str) : Bool :=
  if IsNotExist (env.Stat fs path) then false else true

/-- The `range` loop of `download`, from the file-system state `fs`. `err` is
the variable declared at the top of the function; the error of `getObject` is
bound to a new variable of the `if` statement. -/
def downloadLoop {σ : Type} (env : Env σ) (bucketName pfx destination : Str) (err : GoError) :
    List ObjectInfo → σ → List Event × σ × GoError
  | [], fs => ([], fs, err)
  | object :: rest, fs =>
    match object.Err with
    | some e => ([Event.println [LogArg.err e]], fs, err)
    | none =>
      let l := Event.println [LogArg.str object.Key, LogArg.str " - ".toList,
        LogArg.bytes (toUint64 object.Size)]
      if object.Size = 0 then
        let r := downloadLoop env bucketName pfx destination err rest fs
        (l :: r.1, r.2)
      else
        let path := objToFileName object.Key pfx destination
        if fileExists env fs path then
          let r := downloadLoop env bucketName pfx destination err rest fs
          (l :: Event.stat path :: Event.println [LogArg.str "file exists: ".toList, LogArg.str path]
            :: r.1, r.2)
        else
          let g := getObject env fs bucketName object.Key path
          match g.2 with
          | some e =>
            let r := downloadLoop env bucketName pfx destination err rest g.1
            (l :: Event.stat path :: Event.fGetObject bucketName object.Key path
              :: Event.println [LogArg.str object.Key, LogArg.str " Error: ".toList, LogArg.err e]
              :: r.1, r.2)
          | none =>
            let r := downloadLoop env bucketName pfx destination err rest g.1
            (l :: Event.stat path :: Event.fGetObject bucketName object.Key path :: r.1, r.2)

/-- `download` of `main.go`: the trace, the final file-system state and the
returned error. -/
def download {σ : Type} (env : Env σ) (bucketName pfx destination : Str) (fs : σ) :
    List Event × σ × GoError :=
  let err : GoError := none
  let isRecursive := true
  let r := downloadLoop env bucketName pfx destination err
    (env.ListObjectsV2 bucketName pfx isRecursive) fs
  (Event.listObjectsV2 bucketName pfx isRecursive :: r.1, r.2)

/-- The command line after `flag.Parse`. -/
structure Flags where
  bucketName : Str
  bucketPrefix : Str
  destinationPath : Str
  cmdList : Bool
  cmdDownload : Bool
  cmdUsage : Bool
deriving DecidableEq, Repr

/-- `main` of `main.go`, from the error of `configor.Load`, the parsed flags,
the error of `minio.New`, the client and the file system: the trace and the
final file-system state, or `none` when the program panics. `log.Fatalln`
ends the process, so a trace stops at its `fatalln` event. -/
def main {σ : Type} (configErr : GoError) (f : Flags) (newErr : GoError) (env : Env σ) (fs : σ) :
    Option (List Event × σ) :=
  match configErr with
  | some e => some ([Event.fatalln [LogArg.err e]], fs)
  | none =>
  if f.bucketName.length = 0 then
    some ([Event.fatalln [LogArg.str "bucket not specified".toList]], fs)
  else if f.cmdDownload && f.destinationPath.length = 0 then
    some ([Event.fatalln [LogArg.str "destination not specified".toList]], fs)
  else if (f.cmdUsage || f.cmdList || f.cmdDownload) && f.bucketPrefix.length = 0 then
    some ([Event.fatalln [LogArg.str "prefix not specified".toList]], fs)
  else
  match newErr with
  | some e => some ([Event.newClient, Event.fatalln [LogArg.err e]], fs)
  | none =>
  if f.cmdList then
    match listDirectories env f.bucketName f.bucketPrefix false with
    | none => none
    | some (t, some e) => some (Event.newClient :: t ++ [Event.fatalln [LogArg.err e]], fs)
    | some (t, none) => some (Event.newClient :: t, fs)
  else if f.cmdUsage then
    match getUsage env f.bucketName f.bucketPrefix with
    | none => none
    | some (t, _, some e) =>
      some (Event.newClient :: Event.println [LogArg.str "Getting usage...".toList] :: t
        ++ [Event.fatalln [LogArg.err e]], fs)
    | some (t, total, none) =>
      some (Event.newClient :: Event.println [LogArg.str "Getting usage...".toList] :: t
        ++ [Event.println [LogArg.str "Usage: ".toList, LogArg.bytes total]], fs)
  else if f.cmdDownload then
    match download env f.bucketName f.bucketPrefix f.destinationPath fs with
    | (t, fs1, some e) => some (Event.newClient :: t ++ [Event.fatalln [LogArg.err e]], fs1)
    | (t, fs1, none) =>
      some (Event.newClient :: t ++ [Event.println [LogArg.str "Download complete".toList]], fs1)
  else some ([Event.newClient], fs)

/-! ## A concrete file system for examples -/

/-- A file system given by the list of paths that exist. -/
abbrev Files := List Str

/-- An environment over `Files`: the listing is the given stream whatever the
arguments, a fetch fails for the keys in `failing` and otherwise creates its
target path and nothing else (no directory; `dirEnv` creates those too), and
`os.Stat` finds exactly the listed paths. -/
def listEnv (stream : List ObjectInfo) (failing : List Str) : Env Files where
  ListObjectsV2 := fun _ _ _ => stream
  FGetObject := fun fs _ key path =>
    if key ∈ failing then (fs, some "fetch failed".toList) else (path :: fs, none)
  Stat := fun fs path => if path ∈ fs then none else some StatError.notExist

/-- An error-free record. -/
def obj (key : String) (size : Int) : ObjectInfo := { Key := key.toList, Size := size, Err := none }

/-- The scenario of the specification: two files and a directory marker. -/
def reports : List ObjectInfo :=
  [obj "reports/2020/a.csv" 100, obj "reports/2020/" 0, obj "reports/2021/b.csv" 50]

/-- A record carrying a listing error. -/
def errObj (msg : String) : ObjectInfo := { Key := [], Size := 0, Err := some msg.toList }

/-- A listing that fails after its first record. -/
def broken : List ObjectInfo :=
  [obj "reports/2020/a.csv" 100, errObj "connection reset", obj "reports/2021/b.csv" 50]

/-! ## Specification-level notions -/

/-- The effective prefix in the words of the specification: `p + "/"` when `p`
does not end in `/`, and `p` unchanged when it does. -/
def slashed (p : Str) : Str := if p.getLast? = some '/' then p else p ++ ['/']

/-- The sum of the sizes of the records with nonzero size, each converted to an
unsigned 64-bit integer, modulo `2^64`. -/
def nonzeroSizeSum (stream : List ObjectInfo) : Nat :=
  ((stream.filter (fun o => o.Size ≠ 0)).map (fun o => toUint64 o.Size)).sum % 2 ^ 64

/-- Whether a trace contains a fatal log call. -/
def hasFatal (t : List Event) : Bool :=
  t.any (fun e => match e with | Event.fatalln _ => true | _ => false)

/-- The trace of `main.go` when `main` stops at one of its argument checks. -/
def fatalOnly (msg : String) : List Event := [Event.fatalln [LogArg.str msg.toList]]

/-- Whether an event is a fetch of an object. -/
def Event.isFetch : Event → Bool
  | Event.fGetObject _ _ _ => true
  | _ => false

/-- The fetches of a trace, in order: object key and local path. -/
def fetchesOf (t : List Event) : List (Str × Str) :=
  t.filterMap (fun e => match e with | Event.fGetObject _ k p => some (k, p) | _ => none)

/-- The existence checks of a trace, in order. -/
def statsOf (t : List Event) : List Str :=
  t.filterMap (fun e => match e with | Event.stat p => some p | _ => none)

/-- The records of nonzero size, in stream order, each with its local path. -/
def wanted (pfx destination : Str) (stream : List ObjectInfo) : List (Str × Str) :=
  (stream.filter (fun o => o.Size ≠ 0)).map (fun o => (o.Key, objToFileName o.Key pfx destination))

/-- Two keys with the same local path: `reports//a` is cleaned to `a` too. -/
def doubled : List ObjectInfo := [obj "reports/a" 10, obj "reports//a" 20]

/-- Two keys of which one target is a directory on the way to the other:
`/tmp/a` is the parent of `/tmp/a/b`. -/
def nested : List ObjectInfo := [obj "reports/a/b" 10, obj "reports/a" 5]

/-- The directories on the way to a path: for `/tmp/a/b` these are `/`, `/tmp`
and `/tmp/a`. -/
def parents (path : Str) : List Str :=
  (List.range path.length).filterMap
    (fun i => if path.get? i = some '/' then some (if i = 0 then ['/'] else path.take i) else none)

/-- An environment over `Files` whose fetch behaves like `FGetObject` of the
storage client on the file system: it first creates the directories on the way
to its target, and then, unless the key is in `failing`, the target itself.
The listing is the given stream whatever the arguments, and `os.Stat` finds
exactly the paths of the state. -/
def dirEnv (stream : List ObjectInfo) (failing : List Str) : Env Files where
  ListObjectsV2 := fun _ _ _ => stream
  FGetObject := fun fs _ key path =>
    if key ∈ failing then (parents path ++ fs, some "fetch failed".toList)
    else (path :: (parents path ++ fs), none)
  Stat := fun fs path => if path ∈ fs then none else some StatError.notExist

/-- The file system in which `/tmp` exists and is empty. -/
def emptyTmp : Files := ["/".toList, "/tmp".toList]

/-- The log line `download` writes when a fetch fails. -/
def fetchLog (key : Str) : GoError → List Event
  | some e => [Event.println [LogArg.str key, LogArg.str " Error: ".toList, LogArg.err e]]
  | none => []

/-- The path elements of a string: the pieces between separators. -/
def segments (p : Str) : List Str := p.splitOn '/'

/-- The path element `..`. -/
def dotDot : Str := ['.', '.']

/-- The invariant of the scan of a rooted path. -/
def RootedInv (s : CleanState) : Prop := s.dotdot = 1 ∧ s.out.head? = some '/'

/-- A path lies under a folder, in the words of the specification: it is the
folder itself or has the folder followed by a path separator as a prefix. -/
def liesUnder (d r : Str) : Prop := r = d ∨ (d ++ ['/']) <+: r

instance liesUnderDecidable (d r : Str) : Decidable (liesUnder d r) := by
  unfold liesUnder
  infer_instance

/-! ## Lemmas on the trailing-slash statement -/

theorem index_last (p : Str) : index p ((p.length : Int) - 1) = p.getLast? := by
  cases p with
  | nil => simp [index]
  | cons c t =>
    have h1 : ((↑(c :: t).length : Int) - 1) = ((t.length : Nat) : Int) := by
      simp
    rw [h1, index]
    have h2 : (0 : Int) ≤ (t.length : Int) ∧ (t.length : Int) < ((c :: t).length : Int) := by
      constructor
      · exact Int.ofNat_nonneg _
      · simp
    rw [if_pos h2, Int.toNat_ofNat, List.getLast?_eq_getElem?]
    simp

theorem addSlash_nil : addSlash [] = none := by
  simp [addSlash, index]

theorem addSlash_eq_slashed (p : Str) (h : p ≠ []) : addSlash p = some (slashed p) := by
  unfold addSlash slashed
  rw [index_last]
  cases hl : p.getLast? with
  | none => exact absurd (List.getLast?_eq_none_iff.mp hl) h
  | some c =>
    by_cases hc : c = '/'
    · simp [hc]
    · simp [hc]

theorem addSlash_eq_none_iff (p : Str) : addSlash p = none ↔ p = [] := by
  constructor
  · intro h
    by_contra hp
    rw [addSlash_eq_slashed p hp] at h
    exact Option.noConfusion h
  · intro h
    rw [h, addSlash_nil]

/-! ## Lemmas on the loops -/

theorem listLoop_err (err : GoError) (stream : List ObjectInfo) : (listLoop err stream).2 = err := by
  induction stream with
  | nil => rfl
  | cons o rest ih =>
    unfold listLoop
    cases o.Err with
    | none => exact ih
    | some e => rfl

theorem usageLoop_err (err : GoError) (stream : List ObjectInfo) (total : Nat) :
    (usageLoop err stream total).2.2 = err := by
  induction stream generalizing total with
  | nil => rfl
  | cons o rest ih =>
    unfold usageLoop
    cases o.Err with
    | none => exact ih _
    | some e => rfl

theorem usageLoop_ok (err : GoError) (stream : List ObjectInfo) (total : Nat)
    (ht : total < 2 ^ 64) (h : ∀ o ∈ stream, o.Err = none) :
    usageLoop err stream total
      = ([], (total + (stream.map (fun o => toUint64 o.Size)).sum) % 2 ^ 64, err) := by
  induction stream generalizing total with
  | nil => simp only [usageLoop, List.map_nil, List.sum_nil, Nat.add_zero, Nat.mod_eq_of_lt ht]
  | cons o rest ih =>
    have ho : o.Err = none := h o (List.mem_cons_self _ _)
    have hr : ∀ x ∈ rest, x.Err = none := fun x hx => h x (List.mem_cons_of_mem _ hx)
    unfold usageLoop
    rw [ho]
    simp only
    rw [ih _ (Nat.mod_lt _ (by norm_num)) hr]
    simp [List.map_cons, List.sum_cons, Nat.add_assoc]

theorem sum_nonzero_sizes (stream : List ObjectInfo) :
    ((stream.filter (fun o => o.Size ≠ 0)).map (fun o => toUint64 o.Size)).sum
      = (stream.map (fun o => toUint64 o.Size)).sum := by
  induction stream with
  | nil => rfl
  | cons o rest ih =>
    by_cases h : o.Size = 0
    · simpa [List.filter_cons, h, toUint64] using ih
    · simpa [List.filter_cons, h] using ih

/-! ## Listing errors in `list` and `usage` -/

/-- Whatever the listing, the error `listDirectories` returns is nil. -/
theorem listDirectories_returns_nil {σ : Type} (env : Env σ) (bucketName pfx : Str)
    (isRecursive : Bool) (r : List Event × GoError)
    (h : listDirectories env bucketName pfx isRecursive = some r) : r.2 = none := by
  unfold listDirectories at h
  cases hp : addSlash pfx with
  | none => simp [hp] at h
  | some q =>
    simp only [hp, Option.some.injEq] at h
    rw [← h]
    exact listLoop_err none _

/-- Whatever the listing, the error `getUsage` returns is nil. -/
theorem getUsage_returns_nil {σ : Type} (env : Env σ) (bucketName pfx : Str)
    (r : List Event × Nat × GoError) (h : getUsage env bucketName pfx = some r) :
    r.2.2 = none := by
  unfold getUsage at h
  cases hp : addSlash pfx with
  | none => simp [hp] at h
  | some q =>
    simp only [hp, Option.some.injEq] at h
    rw [← h]
    exact usageLoop_err none _ 0

/-- C1 (code defect): on a listing whose second record carries an error,
`listDirectories` and `getUsage` do stop at that record (the third record is
neither printed nor counted), but both return a nil error (`getUsage` with
total 0), and `main` ends without a fatal log: `-list` just stops printing and
`-usage` reports a usage of 0 bytes. -/
theorem listing_error_is_swallowed :
    listDirectories (listEnv broken []) "luxedigest".toList "reports/".toList false
        = some ([Event.println [LogArg.str "listDirectories:".toList, LogArg.str "luxedigest".toList,
              LogArg.str "reports/".toList],
            Event.listObjectsV2 "luxedigest".toList "reports/".toList false,
            Event.println [LogArg.str "reports/2020/a.csv".toList, LogArg.str " - ".toList,
              LogArg.bytes 100],
            Event.println [LogArg.err "connection reset".toList]], none)
      ∧ getUsage (listEnv broken []) "luxedigest".toList "reports/".toList
        = some ([Event.listObjectsV2 "luxedigest".toList "reports/".toList true,
            Event.println [LogArg.err "connection reset".toList]], 0, none)
      ∧ (main none ⟨"luxedigest".toList, "reports/".toList, "/tmp".toList, true, false, false⟩ none
          (listEnv broken []) []).map (fun r => hasFatal r.1) = some false
      ∧ (main none ⟨"luxedigest".toList, "reports/".toList, "/tmp".toList, false, false, true⟩ none
          (listEnv broken []) []).map (fun r => (hasFatal r.1, r.1.getLast?))
        = some (false, some (Event.println [LogArg.str "Usage: ".toList, LogArg.bytes 0])) := by
  decide

/-! ## The total of `usage` -/

/-- C2: for a non-empty prefix and an error-free listing, `getUsage` makes one
listing call and returns the sum modulo `2^64` of the sizes of the records with
nonzero size, each converted to `uint64`, with a nil error; the total is 0 when
the listing has no records. -/
theorem getUsage_total {σ : Type} (env : Env σ) (bucketName pfx : Str) (hp : pfx ≠ [])
    (h : ∀ o ∈ env.ListObjectsV2 bucketName (slashed pfx) true, o.Err = none) :
    getUsage env bucketName pfx
        = some ([Event.listObjectsV2 bucketName (slashed pfx) true],
            nonzeroSizeSum (env.ListObjectsV2 bucketName (slashed pfx) true), none)
      ∧ (env.ListObjectsV2 bucketName (slashed pfx) true = [] →
          getUsage env bucketName pfx
            = some ([Event.listObjectsV2 bucketName (slashed pfx) true], 0, none)) := by
  have key : getUsage env bucketName pfx
        = some ([Event.listObjectsV2 bucketName (slashed pfx) true],
            nonzeroSizeSum (env.ListObjectsV2 bucketName (slashed pfx) true), none) := by
    unfold getUsage
    simp only [addSlash_eq_slashed pfx hp]
    rw [usageLoop_ok none _ 0 (by norm_num) h]
    rw [nonzeroSizeSum, sum_nonzero_sizes]
    simp
  refine ⟨key, ?_⟩
  intro he
  rw [key, he]
  rfl

/-- C2, the scenario of the specification: sizes 100, 0 and 50 under
`reports/` give a usage of 150. -/
theorem getUsage_total_witness :
    getUsage (listEnv reports []) "luxedigest".toList "reports/".toList
      = some ([Event.listObjectsV2 "luxedigest".toList "reports/".toList true], 150, none) :=
  (getUsage_total (listEnv reports []) "luxedigest".toList "reports/".toList (by decide)
    (by decide)).1.trans (by decide)

/-! ## The prefix of the listing call -/

theorem listDirectories_listing_call {σ : Type} (env : Env σ) (bucketName pfx : Str)
    (isRecursive : Bool) (hp : pfx ≠ []) :
    ∃ t err, listDirectories env bucketName pfx isRecursive
      = some (Event.println [LogArg.str "listDirectories:".toList, LogArg.str bucketName,
          LogArg.str pfx] :: Event.listObjectsV2 bucketName (slashed pfx) isRecursive :: t, err) := by
  unfold listDirectories
  simp only [addSlash_eq_slashed pfx hp]
  exact ⟨_, _, rfl⟩

theorem getUsage_listing_call {σ : Type} (env : Env σ) (bucketName pfx : Str) (hp : pfx ≠ []) :
    ∃ t r, getUsage env bucketName pfx
      = some (Event.listObjectsV2 bucketName (slashed pfx) true :: t, r) := by
  unfold getUsage
  simp only [addSlash_eq_slashed pfx hp]
  exact ⟨_, _, rfl⟩

theorem download_listing_call {σ : Type} (env : Env σ) (bucketName pfx destination : Str) (fs : σ) :
    ∃ t r, download env bucketName pfx destination fs
      = (Event.listObjectsV2 bucketName pfx true :: t, r) :=
  ⟨_, _, rfl⟩

/-- C3 (code defect): for the prefix `reports`, which does not end in `/`,
`listDirectories` and `getUsage` pass `reports/` to the listing call, but
`download` passes `reports` itself: its listing call is not made with
`prefix + "/"`. -/
theorem download_lists_raw_prefix :
    (listDirectories (listEnv reports []) "luxedigest".toList "reports".toList false).map
        (fun r => r.1.get? 1)
        = some (some (Event.listObjectsV2 "luxedigest".toList "reports/".toList false))
      ∧ (getUsage (listEnv reports []) "luxedigest".toList "reports".toList).map
        (fun r => r.1.head?)
        = some (some (Event.listObjectsV2 "luxedigest".toList "reports/".toList true))
      ∧ (download (listEnv reports []) "luxedigest".toList "reports".toList "/tmp".toList []).1.head?
        = some (Event.listObjectsV2 "luxedigest".toList "reports".toList true)
      ∧ slashed "reports".toList = "reports/".toList := by
  decide

/-! ## The local path of an object -/

theorem cutFirst_append (old rest : Str) (h : old ≠ []) : cutFirst old (old ++ rest) = rest := by
  cases old with
  | nil => exact absurd rfl h
  | cons c t =>
    have hp : (c :: t).isPrefixOf (c :: (t ++ rest)) = true := by
      rw [List.isPrefixOf_iff_prefix]
      exact List.prefix_append (c :: t) rest
    rw [List.cons_append, cutFirst, if_pos hp]
    exact List.drop_left' rfl

theorem stringsReplace1_append (old rest : Str) : stringsReplace1 (old ++ rest) old = rest := by
  unfold stringsReplace1
  by_cases h : old = []
  · simp [h]
  · rw [if_neg h, cutFirst_append old rest h]

/-- C4: `objToFileName (prefix ++ rest) prefix folder` is `filepath.Join
(folder, rest)`: the prefix is removed at the start of the key only, also when
it occurs again in `rest`; for the key `a/b/c.txt`, the prefix `a/` and the
folder `/tmp` the path is `/tmp/b/c.txt`. -/
theorem objToFileName_prefix_stripped (pfx rest folder : Str) (hp : pfx ≠ []) :
    objToFileName (pfx ++ rest) pfx folder = filepathJoin folder rest
      ∧ objToFileName (pfx ++ (pfx ++ rest)) pfx folder = filepathJoin folder (pfx ++ rest)
      ∧ objToFileName "a/b/c.txt".toList "a/".toList "/tmp".toList = "/tmp/b/c.txt".toList := by
  refine ⟨?_, ?_, by decide⟩
  · simp only [objToFileName, stringsReplace1, if_neg hp, cutFirst_append pfx _ hp]
  · simp only [objToFileName, stringsReplace1, if_neg hp, cutFirst_append pfx _ hp]

/-- C4 at the key `a/a/x`, whose prefix `a/` occurs twice: only the first
occurrence is removed. -/
theorem objToFileName_prefix_stripped_witness :
    objToFileName "a/a/x".toList "a/".toList "/tmp".toList = "/tmp/a/x".toList :=
  ((objToFileName_prefix_stripped "a/".toList "a/x".toList "/tmp".toList (by decide)).1).trans
    (by decide)

/-! ## The local path stays under the destination -/

theorem segments_nil : segments [] = [[]] := rfl

theorem segments_sep (t : Str) : segments ('/' :: t) = [] :: segments t := by
  simp [segments, List.splitOn, List.splitOnP_cons]

theorem segments_cons (c : Char) (t : Str) (h : c ≠ '/') :
    segments (c :: t) = (segments t).modifyHead (List.cons c) := by
  simp [segments, List.splitOn, List.splitOnP_cons, h]

theorem segments_ne_nil (p : Str) : segments p ≠ [] := List.splitOnP_ne_nil _ _

theorem segments_tail (c : Char) (t : Str) (h : c ≠ '/') :
    (segments (c :: t)).tail = (segments t).tail := by
  rw [segments_cons c t h]
  cases segments t <;> rfl

theorem dotDot_mem_segments (u : Str) (h : u = [] ∨ u.head? = some '/') :
    dotDot ∈ segments ('.' :: '.' :: u) := by
  rw [segments_cons _ _ (by decide), segments_cons _ _ (by decide)]
  rcases h with h | h
  · subst h
    simp [segments_nil, dotDot]
  · cases u with
    | nil => simp at h
    | cons x v =>
      simp at h
      subst h
      simp [segments_sep, dotDot]

theorem endOrSep_append (u b : Str) :
    (u ++ '/' :: b = [] ∨ (u ++ '/' :: b).head? = some '/') ↔ (u = [] ∨ u.head? = some '/') := by
  cases u <;> simp

theorem cleanLoop_dotdot (rooted : Bool) (c d : Char) (u : Str) (s : CleanState) (h1 : ¬c = '/')
    (h2 : ¬(c = '.' ∧ d = '/')) (h3 : c = '.' ∧ d = '.' ∧ (u = [] ∨ u.head? = some '/')) :
    cleanLoop rooted false (c :: d :: u) s = cleanLoop rooted false u (cleanDotDot rooted s) := by
  conv_lhs => rw [cleanLoop, if_neg h1, if_neg h2, if_pos h3]

theorem cleanLoop_real (rooted : Bool) (c d : Char) (u : Str) (s : CleanState) (h1 : ¬c = '/')
    (h2 : ¬(c = '.' ∧ d = '/')) (h3 : ¬(c = '.' ∧ d = '.' ∧ (u = [] ∨ u.head? = some '/'))) :
    cleanLoop rooted false (c :: d :: u) s
      = cleanLoop rooted true (d :: u)
          { out := (cleanSep rooted s).out ++ [c], dotdot := (cleanSep rooted s).dotdot } := by
  conv_lhs => rw [cleanLoop, if_neg h1, if_neg h2, if_neg h3]

theorem cleanLoop_sep (rooted m : Bool) (b : Str) (s : CleanState) :
    cleanLoop rooted m ('/' :: b) s = cleanLoop rooted false b s := by
  cases m
  · cases b with
    | nil => simp [cleanLoop]
    | cons d u => simp [cleanLoop]
  · simp [cleanLoop]

theorem cleanLoop_append_sep (rooted : Bool) (b : Str) (m : Bool) (a : Str) (s : CleanState) :
    cleanLoop rooted m (a ++ '/' :: b) s = cleanLoop rooted false b (cleanLoop rooted m a s) := by
  induction m, a, s using cleanLoop.induct rooted with
  | case1 x s => simp [cleanLoop, cleanLoop_sep]
  | case2 t s ih => simpa [cleanLoop] using ih
  | case3 c t s hc ih => simpa [cleanLoop, hc] using ih
  | case4 s => simp [cleanLoop, cleanLoop_sep]
  | case5 s h => simp [cleanLoop, cleanLoop_sep]
  | case6 c s h1 h2 => simp [cleanLoop, h1, h2]
  | case7 d u s ih => simpa [cleanLoop] using ih
  | case8 c d u s h1 h2 ih => simpa [cleanLoop, h1, h2] using ih
  | case9 c d u s h1 h2 h3 ih =>
    have h3q := (endOrSep_append u b).mpr h3.2.2
    rw [List.cons_append, List.cons_append,
      cleanLoop_dotdot rooted c d _ s h1 h2 ⟨h3.1, h3.2.1, h3q⟩, ih,
      cleanLoop_dotdot rooted c d u s h1 h2 h3]
  | case10 c d u s h1 h2 h3 ih =>
    have h3q : ¬(c = '.' ∧ d = '.' ∧ (u ++ '/' :: b = [] ∨ (u ++ '/' :: b).head? = some '/')) :=
      fun h => h3 ⟨h.1, h.2.1, (endOrSep_append u b).mp h.2.2⟩
    rw [List.cons_append, List.cons_append, cleanLoop_real rooted c d _ s h1 h2 h3q,
      cleanLoop_real rooted c d u s h1 h2 h3, ← List.cons_append]
    exact ih


/-! ### The rooted buffer keeps its leading separator -/

theorem backtrack_ge (out : Str) (dd w : Nat) (h : dd ≤ w) : dd ≤ backtrack out dd w := by
  induction w with
  | zero => simpa [backtrack] using h
  | succ w ih =>
    rw [backtrack]
    split
    · rename_i hc
      exact ih (by omega)
    · exact h

theorem rootedInv_push {s : CleanState} (h : RootedInv s) (c : Char) :
    RootedInv { out := s.out ++ [c], dotdot := s.dotdot } := by
  obtain ⟨h1, h2⟩ := h
  refine ⟨h1, ?_⟩
  cases hs : s.out with
  | nil => rw [hs] at h2; simp at h2
  | cons x t => rw [hs] at h2; simpa using h2

theorem rootedInv_cleanSep {s : CleanState} (h : RootedInv s) : RootedInv (cleanSep true s) := by
  unfold cleanSep
  split
  · exact rootedInv_push h '/'
  · exact h

theorem rootedInv_cleanDotDot {s : CleanState} (h : RootedInv s) :
    RootedInv (cleanDotDot true s) := by
  unfold cleanDotDot
  split
  · rename_i hlt
    refine ⟨h.1, ?_⟩
    have hk : 1 ≤ backtrack s.out s.dotdot (s.out.length - 1) := by
      have := backtrack_ge s.out s.dotdot (s.out.length - 1) (by omega)
      have h1 := h.1
      omega
    have h2 := h.2
    cases hs : s.out with
    | nil => rw [hs] at h2; simp at h2
    | cons x t =>
      rw [hs] at h2 hk
      obtain ⟨k, hk2⟩ : ∃ k, backtrack (x :: t) s.dotdot ((x :: t).length - 1) = k + 1 :=
        ⟨_, (Nat.succ_pred_eq_of_pos hk).symm⟩
      simp only [hk2, List.take_succ_cons]
      simpa using h2
  · simpa using h

theorem cleanLoop_rootedInv (m : Bool) (a : Str) (s : CleanState) (h : RootedInv s) :
    RootedInv (cleanLoop true m a s) := by
  induction m, a, s using cleanLoop.induct true with
  | case1 x s => simpa [cleanLoop] using h
  | case2 t s ih => simpa [cleanLoop] using ih h
  | case3 c t s hc ih => simpa [cleanLoop, hc] using ih (rootedInv_push h c)
  | case4 s => simpa [cleanLoop] using h
  | case5 s _ => simpa [cleanLoop] using h
  | case6 c s h1 h2 => simpa [cleanLoop, h1, h2] using rootedInv_push (rootedInv_cleanSep h) c
  | case7 d u s ih => simpa [cleanLoop] using ih h
  | case8 c d u s h1 h2 ih =>
    rw [cleanLoop, if_neg h1, if_pos h2]
    exact ih h
  | case9 c d u s h1 h2 h3 ih =>
    rw [cleanLoop_dotdot true c d u s h1 h2 h3]
    exact ih (rootedInv_cleanDotDot h)
  | case10 c d u s h1 h2 h3 ih =>
    rw [cleanLoop_real true c d u s h1 h2 h3]
    exact ih (rootedInv_push (rootedInv_cleanSep h) c)


/-! ### Without `..` elements the buffer only grows -/

theorem cleanSep_out_length (rooted : Bool) (s : CleanState) :
    s.out.length ≤ (cleanSep rooted s).out.length := by
  unfold cleanSep
  split <;> simp

theorem cleanSep_out_of_inside (rooted : Bool) (s : CleanState)
    (h2 : rooted = true → 2 ≤ s.out.length) (h0 : s.out ≠ []) :
    (cleanSep rooted s).out = s.out ++ ['/'] := by
  unfold cleanSep
  have hl : 0 < s.out.length := List.length_pos.mpr h0
  cases rooted with
  | true =>
    have := h2 rfl
    have h1 : s.out.length ≠ 1 := by omega
    simp [h1]
  | false =>
    have h1 : s.out.length ≠ 0 := by omega
    simp [h1]

theorem not_mem_takeWhile_sep (p : Str) : '/' ∉ p.takeWhile (fun c => c != '/') := by
  intro h
  have := List.mem_takeWhile_imp h
  simp at this

theorem takeWhile_eq_nil_sep (u : Str) (h : u.takeWhile (fun c => c != '/') = []) :
    u = [] ∨ u.head? = some '/' := by
  cases u with
  | nil => exact Or.inl rfl
  | cons x v =>
    right
    by_cases hx : x = '/'
    · simp [hx]
    · simp [List.takeWhile_cons, hx] at h

theorem cleanLoop_noDotDot (rooted m : Bool) (p : Str) (s : CleanState) :
    (m = true → dotDot ∉ (segments p).tail → (rooted = true → 2 ≤ s.out.length) → s.out ≠ [] →
        ∃ tail, (tail = [] ∨ tail.head? = some '/') ∧
          (cleanLoop rooted true p s).out = s.out ++ p.takeWhile (fun c => c != '/') ++ tail)
      ∧ (m = false → dotDot ∉ segments p → (rooted = true → 1 ≤ s.out.length) →
        (cleanLoop rooted false p s).out = s.out
          ∨ ∃ seg tail, seg ≠ [] ∧ '/' ∉ seg ∧ seg ≠ dotDot ∧ (tail = [] ∨ tail.head? = some '/') ∧
            (cleanLoop rooted false p s).out = (cleanSep rooted s).out ++ seg ++ tail) := by
  induction m, p, s using cleanLoop.induct rooted with
  | case1 x s =>
    refine ⟨fun _ _ _ _ => ⟨[], Or.inl rfl, by simp [cleanLoop]⟩, fun _ _ _ => Or.inl ?_⟩
    simp [cleanLoop]
  | case2 t s ih =>
    refine ⟨fun _ hd h2 h0 => ?_, fun h => Bool.noConfusion h⟩
    rw [segments_sep, List.tail_cons] at hd
    rw [cleanLoop_sep]
    rcases ih.2 rfl hd (fun hr => by have := h2 hr; omega) with h | ⟨seg, tail, _, _, _, _, h⟩
    · exact ⟨[], Or.inl rfl, by simp [h]⟩
    · rw [cleanSep_out_of_inside rooted s h2 h0] at h
      exact ⟨'/' :: seg ++ tail, Or.inr rfl, by simp [h]⟩
  | case3 c t s hc ih =>
    refine ⟨fun _ hd h2 h0 => ?_, fun h => Bool.noConfusion h⟩
    rw [segments_tail c t hc] at hd
    obtain ⟨tail, ht, h⟩ := ih.1 rfl hd (fun hr => by have := h2 hr; simp; omega) (by simp)
    refine ⟨tail, ht, ?_⟩
    rw [cleanLoop, if_neg hc, h]
    simp [List.takeWhile_cons, hc]
  | case4 s => exact ⟨fun h => Bool.noConfusion h, fun _ _ _ => Or.inl (by simp [cleanLoop])⟩
  | case5 s _ => exact ⟨fun h => Bool.noConfusion h, fun _ _ _ => Or.inl (by simp [cleanLoop])⟩
  | case6 c s h1 h2 =>
    refine ⟨fun h => Bool.noConfusion h, fun _ _ _ => Or.inr ⟨[c], [], ?_, ?_, ?_, Or.inl rfl, ?_⟩⟩
    · simp
    · simpa using Ne.symm h1
    · simp [dotDot]
    · simp [cleanLoop, h1, h2]
  | case7 d u s ih =>
    refine ⟨fun h => Bool.noConfusion h, fun _ hd hr => ?_⟩
    rw [segments_sep] at hd
    rw [cleanLoop_sep]
    exact ih.2 rfl (fun hm => hd (List.mem_cons_of_mem _ hm)) hr
  | case8 c d u s h1 h2 ih =>
    refine ⟨fun h => Bool.noConfusion h, fun _ hd hr => ?_⟩
    obtain ⟨hc, hdd⟩ := h2
    subst hc
    subst hdd
    rw [segments_cons _ _ (by decide), segments_sep] at hd
    have hd2 : dotDot ∉ segments ('/' :: u) := by
      rw [segments_sep]
      intro hm
      rcases List.mem_cons.mp hm with hm | hm
      · exact absurd hm (by decide)
      · exact hd (by simp [List.modifyHead, hm])
    have := ih.2 rfl hd2 hr
    rw [cleanLoop_sep] at this
    rw [cleanLoop, if_neg h1, if_pos ⟨rfl, rfl⟩, cleanLoop_sep]
    exact this
  | case9 c d u s h1 h2 h3 ih =>
    refine ⟨fun h => Bool.noConfusion h, fun _ hd _ => ?_⟩
    obtain ⟨hc, hdd, hu⟩ := h3
    subst hc
    subst hdd
    exact absurd (dotDot_mem_segments u hu) hd
  | case10 c d u s h1 h2 h3 ih =>
    refine ⟨fun h => Bool.noConfusion h, fun _ hd hr => Or.inr ?_⟩
    have hd2 : dotDot ∉ (segments (d :: u)).tail := by
      rw [← segments_tail c (d :: u) h1]
      exact fun hm => hd (List.mem_of_mem_tail hm)
    have hlen := cleanSep_out_length rooted s
    obtain ⟨tail, ht, h⟩ := ih.1 rfl hd2
      (fun hrt => by have := hr hrt; simp; omega) (by simp)
    refine ⟨c :: (d :: u).takeWhile (fun c => c != '/'), tail, by simp, ?_, ?_, ht, ?_⟩
    · intro hm
      rcases List.mem_cons.mp hm with hm | hm
      · exact h1 hm.symm
      · exact not_mem_takeWhile_sep _ hm
    · intro he
      simp only [dotDot, List.cons.injEq] at he
      obtain ⟨hc, he⟩ := he
      by_cases hds : d = '/'
      · simp [List.takeWhile_cons, hds] at he
      · simp only [List.takeWhile_cons, bne_iff_ne, ne_eq, hds, not_false_eq_true, decide_True,
          if_true, List.cons.injEq] at he
        exact h3 ⟨hc, he.1, takeWhile_eq_nil_sep u he.2⟩
    · rw [cleanLoop_real rooted c d u s h1 h2 h3, h]
      simp


theorem isRooted_append (folder rest : Str) (hf : folder ≠ []) :
    isRooted (folder ++ '/' :: rest) = isRooted folder := by
  cases folder with
  | nil => exact absurd rfl hf
  | cons x t => rfl

theorem cleanBuf_join (folder rest : Str) (hf : folder ≠ []) :
    cleanBuf (folder ++ '/' :: rest) = cleanLoop (isRooted folder) false rest (cleanBuf folder) := by
  unfold cleanBuf
  rw [isRooted_append folder rest hf, cleanLoop_append_sep]

theorem cleanBuf_rootedInv (folder : Str) (h : isRooted folder = true) :
    RootedInv (cleanBuf folder) := by
  unfold cleanBuf
  rw [h]
  exact cleanLoop_rootedInv false folder _ ⟨rfl, rfl⟩

/-- C9 (amended): for a non-empty destination folder and a key `prefix ++ rest`
whose `rest` has no path element `..`, the local path lies under the cleaned
destination: it is the cleaned destination itself or has the cleaned
destination followed by a separator as a prefix; or the cleaned destination is
the root `/` and the path is absolute; or the cleaned destination is `.` and
the path is relative with a first element other than `..`. -/
theorem objToFileName_under_destination (pfx rest folder : Str) (hf : folder ≠ [])
    (hdd : dotDot ∉ segments rest) :
    liesUnder (filepathClean folder) (objToFileName (pfx ++ rest) pfx folder)
      ∨ (filepathClean folder = ['/'] ∧ ['/'] <+: objToFileName (pfx ++ rest) pfx folder)
      ∨ (filepathClean folder = ['.'] ∧ ∃ seg tail, seg ≠ [] ∧ '/' ∉ seg ∧ seg ≠ dotDot
          ∧ (tail = [] ∨ tail.head? = some '/')
          ∧ objToFileName (pfx ++ rest) pfx folder = seg ++ tail) := by
  have hr : objToFileName (pfx ++ rest) pfx folder = filepathClean (folder ++ '/' :: rest) := by
    simp only [objToFileName, stringsReplace1_append, filepathJoin, if_pos hf]
  rw [hr]
  unfold filepathClean
  rw [cleanBuf_join folder rest hf]
  have hlen : isRooted folder = true → 1 ≤ (cleanBuf folder).out.length := by
    intro h
    have := (cleanBuf_rootedInv folder h).2
    cases ho : (cleanBuf folder).out with
    | nil => rw [ho] at this; simp at this
    | cons x t => simp
  rcases (cleanLoop_noDotDot (isRooted folder) false rest (cleanBuf folder)).2 rfl hdd hlen with
    h | ⟨seg, tail, hs1, hs2, hs3, ht, h⟩
  · left
    left
    rw [h]
  · have hne : (cleanSep (isRooted folder) (cleanBuf folder)).out ++ seg ++ tail ≠ [] := by
      cases seg with
      | nil => exact absurd rfl hs1
      | cons x t => simp
    rw [h, if_neg hne]
    by_cases ho : (cleanBuf folder).out = []
    · right
      right
      have hnr : isRooted folder = false := by
        cases hrt : isRooted folder with
        | false => rfl
        | true =>
          have := hlen hrt
          rw [ho] at this
          simp at this
      refine ⟨by simp [ho], seg, tail, hs1, hs2, hs3, ht, ?_⟩
      simp [cleanSep, hnr, ho]
    · rw [if_neg ho]
      cases hrt : isRooted folder with
      | false =>
        left
        right
        have h0 : (cleanBuf folder).out.length ≠ 0 := by simpa using ho
        simp [cleanSep, h0]
      | true =>
        by_cases h1 : (cleanBuf folder).out.length = 1
        · right
          left
          have hinv := (cleanBuf_rootedInv folder hrt).2
          have hout : (cleanBuf folder).out = ['/'] := by
            cases hc : (cleanBuf folder).out with
            | nil => exact absurd hc ho
            | cons x t =>
              rw [hc] at hinv h1
              simp at hinv h1
              rw [hinv, h1]
          refine ⟨hout, ?_⟩
          simp [cleanSep, hout]
        · left
          right
          simp [cleanSep, h1]

/-- C9 (refuted as stated): the key `a/../../etc/passwd` starts with the prefix
`a/`, and for the destination `/tmp` its local path is `/etc/passwd`, which is
neither `/tmp` nor a path with the prefix `/tmp/`. -/
theorem path_escapes_destination :
    objToFileName "a/../../etc/passwd".toList "a/".toList "/tmp".toList = "/etc/passwd".toList
      ∧ "a/".toList <+: "a/../../etc/passwd".toList
      ∧ ¬ liesUnder (filepathClean "/tmp".toList)
          (objToFileName "a/../../etc/passwd".toList "a/".toList "/tmp".toList) := by
  decide

/-- C9 (amended) at the key `reports/2020/a.csv`, the prefix `reports/` and
the destination `/tmp`: the local path lies under `/tmp`. -/
theorem objToFileName_under_destination_witness :
    liesUnder "/tmp".toList
      (objToFileName "reports/2020/a.csv".toList "reports/".toList "/tmp".toList) :=
  (objToFileName_under_destination "reports/".toList "2020/a.csv".toList "/tmp".toList
    (by decide) (by decide)).elim id
    (fun h => h.elim (fun h => absurd h.1 (by decide)) (fun h => absurd h.1 (by decide)))

/-! ## Listing errors in `download` -/

theorem downloadLoop_err {σ : Type} (env : Env σ) (bucketName pfx destination : Str)
    (err : GoError) (stream : List ObjectInfo) (fs : σ) :
    (downloadLoop env bucketName pfx destination err stream fs).2.2 = err := by
  induction stream generalizing fs with
  | nil => rfl
  | cons o rest ih =>
    unfold downloadLoop
    cases o.Err with
    | some e => rfl
    | none =>
      simp only
      split
      · exact ih _
      · split
        · exact ih _
        · split
          · exact ih _
          · exact ih _

/-- Whatever the listing, `download` returns a nil error. -/
theorem download_returns_nil {σ : Type} (env : Env σ) (bucketName pfx destination : Str) (fs : σ) :
    (download env bucketName pfx destination fs).2.2 = none := by
  unfold download
  exact downloadLoop_err env bucketName pfx destination none _ fs

/-- C7 (code defect): on a listing whose second record carries an error,
`download` stops at that record (the first object is fetched, the third is
not) but returns a nil error, and `main` logs "Download complete" with no
fatal log. -/
theorem download_swallows_listing_error :
    (download (listEnv broken []) "luxedigest".toList "reports/".toList "/tmp".toList []).2.2 = none
      ∧ (download (listEnv broken []) "luxedigest".toList "reports/".toList "/tmp".toList []).2.1
        = ["/tmp/2020/a.csv".toList]
      ∧ (main none ⟨"luxedigest".toList, "reports/".toList, "/tmp".toList, false, true, false⟩ none
          (listEnv broken []) []).map (fun r => (hasFatal r.1, r.1.getLast?))
        = some (false, some (Event.println [LogArg.str "Download complete".toList])) := by
  decide

/-! ## The guard of `main` against an empty prefix -/

theorem listDirectories_eq_none_iff {σ : Type} (env : Env σ) (bucketName pfx : Str)
    (isRecursive : Bool) : listDirectories env bucketName pfx isRecursive = none ↔ pfx = [] := by
  rw [← addSlash_eq_none_iff]
  unfold listDirectories
  cases addSlash pfx <;> simp

theorem getUsage_eq_none_iff {σ : Type} (env : Env σ) (bucketName pfx : Str) :
    getUsage env bucketName pfx = none ↔ pfx = [] := by
  rw [← addSlash_eq_none_iff]
  unfold getUsage
  cases addSlash pfx <;> simp

/-- C10 (refuted as stated): `-list` with neither a bucket nor a prefix ends
with the fatal log "bucket not specified", not "prefix not specified". -/
theorem empty_prefix_other_message :
    (main none ⟨[], [], "/tmp".toList, true, false, false⟩ none (listEnv reports []) []).map Prod.fst
        = some (fatalOnly "bucket not specified")
      ∧ fatalOnly "bucket not specified" ≠ fatalOnly "prefix not specified" := by
  decide

/-- C10 (amended): the index `prefix[len(prefix)-1]` of `listDirectories` and
`getUsage` is out of bounds exactly for the empty prefix; `main` never panics;
and when one of `-list`, `-usage`, `-download` is requested with an empty
prefix, `main` ends with a single fatal log and no other event (no client is
built, no operation is called, the file system is untouched), the message
being "prefix not specified" whenever the configuration loads, the bucket is
non-empty and `-download` comes with a non-empty destination. -/
theorem main_guards_prefix_empty {σ : Type} (configErr : GoError) (f : Flags) (newErr : GoError)
    (env : Env σ) (fs : σ) :
    (∀ r, listDirectories env f.bucketName f.bucketPrefix r = none ↔ f.bucketPrefix = [])
      ∧ (getUsage env f.bucketName f.bucketPrefix = none ↔ f.bucketPrefix = [])
      ∧ main configErr f newErr env fs ≠ none
      ∧ ((f.cmdUsage || f.cmdList || f.cmdDownload) = true → f.bucketPrefix = [] →
          (∃ args, main configErr f newErr env fs = some ([Event.fatalln args], fs))
          ∧ (configErr = none → f.bucketName ≠ [] →
              ¬ (f.cmdDownload = true ∧ f.destinationPath = []) →
              main configErr f newErr env fs = some (fatalOnly "prefix not specified", fs))) := by
  refine ⟨fun r => listDirectories_eq_none_iff env _ _ r, getUsage_eq_none_iff env _ _, ?_, ?_⟩
  · unfold main
    cases configErr with
    | some e => simp
    | none =>
      simp only
      split
      · simp
      · split
        · simp
        · split
          · simp
          · rename_i hguard
            have hp : f.bucketPrefix ≠ [] ∨ (f.cmdUsage || f.cmdList || f.cmdDownload) = false := by
              by_cases hz : f.bucketPrefix = []
              · right
                simpa [hz] using hguard
              · exact Or.inl hz
            cases newErr with
            | some e => simp
            | none =>
              simp only
              split
              · rename_i hl
                have hne : f.bucketPrefix ≠ [] := by
                  rcases hp with hp | hp
                  · exact hp
                  · simp [hl] at hp
                have := (listDirectories_eq_none_iff env f.bucketName f.bucketPrefix false).not.mpr hne
                split <;> simp_all
              · split
                · rename_i hl hu
                  have hne : f.bucketPrefix ≠ [] := by
                    rcases hp with hp | hp
                    · exact hp
                    · simp [hu] at hp
                  have := (getUsage_eq_none_iff env f.bucketName f.bucketPrefix).not.mpr hne
                  split <;> simp_all
                · split
                  · split <;> simp
                  · simp
  · intro hreq hempty
    unfold main
    cases configErr with
    | some e => exact ⟨⟨_, rfl⟩, fun h => Option.noConfusion h⟩
    | none =>
      simp only
      split
      · rename_i hb
        exact ⟨⟨_, rfl⟩, fun _ hne => absurd (List.length_eq_zero.mp hb) hne⟩
      · split
        · rename_i hb hd
          refine ⟨⟨_, rfl⟩, fun _ _ hnd => absurd ?_ hnd⟩
          simpa using hd
        · split
          · exact ⟨⟨_, rfl⟩, fun _ _ _ => rfl⟩
          · rename_i hguard
            exfalso
            apply hguard
            simp [hempty, hreq]

/-- C10 (amended) at `-usage` with bucket `luxedigest` and no prefix. -/
theorem main_guards_prefix_empty_witness :
    main none ⟨"luxedigest".toList, [], "/tmp".toList, false, false, true⟩ none
        (listEnv reports []) []
      = some (fatalOnly "prefix not specified", []) :=
  ((main_guards_prefix_empty none ⟨"luxedigest".toList, [], "/tmp".toList, false, false, true⟩ none
    (listEnv reports []) []).2.2.2 (by decide) rfl).2 rfl (by decide) (by decide)

/-! ## The loop of `download` -/

theorem getObject_eq {σ : Type} (env : Env σ) (fs : σ) (b k p : Str) :
    getObject env fs b k p = env.FGetObject fs b k p := by
  unfold getObject
  simp only
  split
  · rename_i e he
    rw [← he]
  · rfl

theorem downloadLoop_cons_zero {σ : Type} (env : Env σ) (b pfx dest : Str) (err : GoError)
    (o : ObjectInfo) (post : List ObjectInfo) (fs : σ) (ho : o.Err = none) (hs : o.Size = 0) :
    downloadLoop env b pfx dest err (o :: post) fs
      = (Event.println [LogArg.str o.Key, LogArg.str " - ".toList, LogArg.bytes (toUint64 o.Size)]
          :: (downloadLoop env b pfx dest err post fs).1,
        (downloadLoop env b pfx dest err post fs).2) := by
  rw [downloadLoop]
  simp only [ho, hs, if_true]

theorem downloadLoop_cons_exists {σ : Type} (env : Env σ) (b pfx dest : Str) (err : GoError)
    (o : ObjectInfo) (post : List ObjectInfo) (fs : σ) (ho : o.Err = none) (hs : o.Size ≠ 0)
    (hex : fileExists env fs (objToFileName o.Key pfx dest) = true) :
    downloadLoop env b pfx dest err (o :: post) fs
      = (Event.println [LogArg.str o.Key, LogArg.str " - ".toList, LogArg.bytes (toUint64 o.Size)]
          :: Event.stat (objToFileName o.Key pfx dest)
          :: Event.println [LogArg.str "file exists: ".toList,
              LogArg.str (objToFileName o.Key pfx dest)]
          :: (downloadLoop env b pfx dest err post fs).1,
        (downloadLoop env b pfx dest err post fs).2) := by
  rw [downloadLoop]
  simp only [ho, hs, hex, if_true, if_false]

theorem downloadLoop_cons_fetch {σ : Type} (env : Env σ) (b pfx dest : Str) (err : GoError)
    (o : ObjectInfo) (post : List ObjectInfo) (fs : σ) (ho : o.Err = none) (hs : o.Size ≠ 0)
    (hex : fileExists env fs (objToFileName o.Key pfx dest) = false) :
    downloadLoop env b pfx dest err (o :: post) fs
      = (Event.println [LogArg.str o.Key, LogArg.str " - ".toList, LogArg.bytes (toUint64 o.Size)]
          :: Event.stat (objToFileName o.Key pfx dest)
          :: Event.fGetObject b o.Key (objToFileName o.Key pfx dest)
          :: (fetchLog o.Key (env.FGetObject fs b o.Key (objToFileName o.Key pfx dest)).2
            ++ (downloadLoop env b pfx dest err post
                (env.FGetObject fs b o.Key (objToFileName o.Key pfx dest)).1).1),
        (downloadLoop env b pfx dest err post
          (env.FGetObject fs b o.Key (objToFileName o.Key pfx dest)).1).2) := by
  rw [downloadLoop]
  simp only [ho, hs, hex, if_false, Bool.false_eq_true, getObject_eq]
  cases (env.FGetObject fs b o.Key (objToFileName o.Key pfx dest)).2 <;> rfl

theorem downloadLoop_append {σ : Type} (env : Env σ) (b pfx dest : Str) (err : GoError)
    (pre rest : List ObjectInfo) (fs : σ) (hpre : ∀ x ∈ pre, x.Err = none) :
    downloadLoop env b pfx dest err (pre ++ rest) fs
      = ((downloadLoop env b pfx dest err pre fs).1
          ++ (downloadLoop env b pfx dest err rest (downloadLoop env b pfx dest err pre fs).2.1).1,
        (downloadLoop env b pfx dest err rest (downloadLoop env b pfx dest err pre fs).2.1).2) := by
  induction pre generalizing fs with
  | nil => rfl
  | cons o pre ih =>
    have ho : o.Err = none := hpre o (List.mem_cons_self _ _)
    have hr : ∀ x ∈ pre, x.Err = none := fun x hx => hpre x (List.mem_cons_of_mem _ hx)
    rw [List.cons_append]
    by_cases hs : o.Size = 0
    · rw [downloadLoop_cons_zero env b pfx dest err o _ fs ho hs,
        downloadLoop_cons_zero env b pfx dest err o _ fs ho hs, ih _ hr]
      rfl
    · cases hex : fileExists env fs (objToFileName o.Key pfx dest) with
      | true =>
        rw [downloadLoop_cons_exists env b pfx dest err o _ fs ho hs hex,
          downloadLoop_cons_exists env b pfx dest err o _ fs ho hs hex, ih _ hr]
        rfl
      | false =>
        rw [downloadLoop_cons_fetch env b pfx dest err o _ fs ho hs hex,
          downloadLoop_cons_fetch env b pfx dest err o _ fs ho hs hex, ih _ hr]
        simp

theorem downloadLoop_existing {σ : Type} (env : Env σ) (b pfx dest : Str) (err : GoError)
    (o : ObjectInfo) (post : List ObjectInfo) (fs : σ) (ho : o.Err = none)
    (hex : fileExists env fs (objToFileName o.Key pfx dest) = true) :
    ∃ logs, (∀ e ∈ logs, Event.isFetch e = false) ∧
      downloadLoop env b pfx dest err (o :: post) fs
        = (logs ++ (downloadLoop env b pfx dest err post fs).1,
            (downloadLoop env b pfx dest err post fs).2) := by
  by_cases hs : o.Size = 0
  · exact ⟨[_], by simp [Event.isFetch], downloadLoop_cons_zero env b pfx dest err o post fs ho hs⟩
  · exact ⟨[_, _, _], by simp [Event.isFetch],
      downloadLoop_cons_exists env b pfx dest err o post fs ho hs hex⟩

/-! ## Existing files are not fetched again -/

/-- C5: when the listing is `pre ++ o :: post` with `pre` error-free, the record
`o` carries no error and its target path exists once `pre` has been processed,
then `download` emits for `o` only events that are not fetches, and goes on
with `post` from the very file-system state it had before `o`. -/
theorem download_skips_existing {σ : Type} (env : Env σ) (b pfx dest : Str)
    (pre post : List ObjectInfo) (o : ObjectInfo) (fs : σ)
    (hl : env.ListObjectsV2 b pfx true = pre ++ o :: post)
    (hpre : ∀ x ∈ pre, x.Err = none) (ho : o.Err = none)
    (hex : fileExists env (downloadLoop env b pfx dest none pre fs).2.1
      (objToFileName o.Key pfx dest) = true) :
    ∃ logs, (∀ e ∈ logs, Event.isFetch e = false) ∧
      download env b pfx dest fs
        = (Event.listObjectsV2 b pfx true :: (downloadLoop env b pfx dest none pre fs).1 ++ logs
            ++ (downloadLoop env b pfx dest none post (downloadLoop env b pfx dest none pre fs).2.1).1,
          (downloadLoop env b pfx dest none post (downloadLoop env b pfx dest none pre fs).2.1).2) := by
  obtain ⟨logs, hlogs, heq⟩ := downloadLoop_existing env b pfx dest none o post _ ho hex
  refine ⟨logs, hlogs, ?_⟩
  unfold download
  simp only [hl]
  rw [downloadLoop_append env b pfx dest none pre (o :: post) fs hpre, heq]
  simp

/-- C5 on the scenario of the specification when `/tmp/2021/b.csv` is already
there: that file is checked and not fetched, and the file system ends with the
old file and the one new file. -/
theorem download_skips_existing_witness :
    fetchesOf (download (listEnv reports []) "luxedigest".toList "reports/".toList "/tmp".toList
        ["/tmp/2021/b.csv".toList]).1
        = [("reports/2020/a.csv".toList, "/tmp/2020/a.csv".toList)]
      ∧ ∃ logs, (∀ e ∈ logs, Event.isFetch e = false) ∧
        download (listEnv reports []) "luxedigest".toList "reports/".toList "/tmp".toList
            ["/tmp/2021/b.csv".toList]
          = (Event.listObjectsV2 "luxedigest".toList "reports/".toList true
              :: (downloadLoop (listEnv reports []) "luxedigest".toList "reports/".toList
                  "/tmp".toList none [obj "reports/2020/a.csv" 100, obj "reports/2020/" 0]
                  ["/tmp/2021/b.csv".toList]).1 ++ logs ++ [],
            ["/tmp/2020/a.csv".toList, "/tmp/2021/b.csv".toList], none) :=
  ⟨by decide,
    download_skips_existing (listEnv reports []) "luxedigest".toList "reports/".toList
      "/tmp".toList [obj "reports/2020/a.csv" 100, obj "reports/2020/" 0] []
      (obj "reports/2021/b.csv" 50) ["/tmp/2021/b.csv".toList] (by decide) (by decide) (by decide)
      (by decide)⟩

/-! ## Fetch errors do not stop `download` -/

/-- C6: on an error-free listing `download` returns a nil error, and for every
record `o` of nonzero size whose target path does not exist when the records
`pre` before it have been processed, the trace goes on after that of `pre`
with the log line of `o`, the existence check and the fetch of `o` to its
target path, whatever the fetches of `pre` returned. -/
theorem download_continues_after_fetch_error {σ : Type} (env : Env σ) (b pfx dest : Str) (fs : σ)
    (h : ∀ x ∈ env.ListObjectsV2 b pfx true, x.Err = none) :
    (download env b pfx dest fs).2.2 = none
      ∧ ∀ pre o post, env.ListObjectsV2 b pfx true = pre ++ o :: post → o.Size ≠ 0 →
        fileExists env (downloadLoop env b pfx dest none pre fs).2.1
          (objToFileName o.Key pfx dest) = false →
        ∃ tail, (download env b pfx dest fs).1
          = Event.listObjectsV2 b pfx true :: (downloadLoop env b pfx dest none pre fs).1
            ++ Event.println [LogArg.str o.Key, LogArg.str " - ".toList,
                LogArg.bytes (toUint64 o.Size)]
            :: Event.stat (objToFileName o.Key pfx dest)
            :: Event.fGetObject b o.Key (objToFileName o.Key pfx dest) :: tail := by
  refine ⟨download_returns_nil env b pfx dest fs, ?_⟩
  intro pre o post hl hs hex
  have hpre : ∀ x ∈ pre, x.Err = none := fun x hx => h x (by rw [hl]; simp [hx])
  have ho : o.Err = none := h o (by rw [hl]; simp)
  unfold download
  simp only [hl]
  rw [downloadLoop_append env b pfx dest none pre (o :: post) fs hpre,
    downloadLoop_cons_fetch env b pfx dest none o post _ ho hs hex]
  exact ⟨_, rfl⟩

/-- C6 on the scenario of the specification when the fetch of
`reports/2020/a.csv` fails: `reports/2021/b.csv` is fetched all the same and
the returned error is nil. -/
theorem download_continues_after_fetch_error_witness :
    (download (listEnv reports ["reports/2020/a.csv".toList]) "luxedigest".toList
        "reports/".toList "/tmp".toList []).2.2 = none
      ∧ ∃ tail, (download (listEnv reports ["reports/2020/a.csv".toList]) "luxedigest".toList
          "reports/".toList "/tmp".toList []).1
        = Event.listObjectsV2 "luxedigest".toList "reports/".toList true
          :: (downloadLoop (listEnv reports ["reports/2020/a.csv".toList]) "luxedigest".toList
              "reports/".toList "/tmp".toList none
              [obj "reports/2020/a.csv" 100, obj "reports/2020/" 0] []).1
          ++ Event.println [LogArg.str "reports/2021/b.csv".toList, LogArg.str " - ".toList,
              LogArg.bytes 50]
          :: Event.stat "/tmp/2021/b.csv".toList
          :: Event.fGetObject "luxedigest".toList "reports/2021/b.csv".toList
              "/tmp/2021/b.csv".toList :: tail :=
  ⟨(download_continues_after_fetch_error (listEnv reports ["reports/2020/a.csv".toList])
      "luxedigest".toList "reports/".toList "/tmp".toList [] (by decide)).1,
    (download_continues_after_fetch_error (listEnv reports ["reports/2020/a.csv".toList])
      "luxedigest".toList "reports/".toList "/tmp".toList [] (by decide)).2
      [obj "reports/2020/a.csv" 100, obj "reports/2020/" 0] (obj "reports/2021/b.csv" 50) []
      (by decide) (by decide) (by decide)⟩

/-! ## What `download` fetches into an empty destination -/

/-- C8 (refuted as stated): with the keys `reports/a` and `reports//a`, both of
nonzero size, and a file system where nothing exists, the first fetch creates
`/tmp/a`, which is the target of the second key too, so `download` fetches one
object where the listing has two of nonzero size. The same happens when the
fetch creates the directories on the way to its target and `/tmp` starts
empty; and there the keys `reports/a/b` and `reports/a`, whose targets differ,
give one fetch as well, since the first fetch creates the directory `/tmp/a`. -/
theorem download_same_target_fetched_once :
    fetchesOf (download (listEnv doubled []) "luxedigest".toList "reports/".toList
        "/tmp".toList []).1
        = [("reports/a".toList, "/tmp/a".toList)]
      ∧ wanted "reports/".toList "/tmp".toList doubled
        = [("reports/a".toList, "/tmp/a".toList), ("reports//a".toList, "/tmp/a".toList)]
      ∧ fetchesOf (download (listEnv doubled []) "luxedigest".toList "reports/".toList
        "/tmp".toList []).1 ≠ wanted "reports/".toList "/tmp".toList doubled
      ∧ fetchesOf (download (dirEnv doubled []) "luxedigest".toList "reports/".toList
        "/tmp".toList emptyTmp).1 ≠ wanted "reports/".toList "/tmp".toList doubled
      ∧ fetchesOf (download (dirEnv nested []) "luxedigest".toList "reports/".toList
        "/tmp".toList emptyTmp).1
        = [("reports/a/b".toList, "/tmp/a/b".toList)]
      ∧ wanted "reports/".toList "/tmp".toList nested
        = [("reports/a/b".toList, "/tmp/a/b".toList), ("reports/a".toList, "/tmp/a".toList)] := by
  decide

theorem fetchesOf_fetchLog (key : Str) (e : GoError) : fetchesOf (fetchLog key e) = [] := by
  cases e <;> rfl

theorem statsOf_fetchLog (key : Str) (e : GoError) : statsOf (fetchLog key e) = [] := by
  cases e <;> rfl

theorem downloadLoop_fetches {σ : Type} (env : Env σ) (b pfx dest : Str) (err : GoError)
    (stream : List ObjectInfo) (fs : σ)
    (herr : ∀ o ∈ stream, o.Err = none)
    (habsent : ∀ q ∈ (wanted pfx dest stream).map Prod.snd, fileExists env fs q = false)
    (hframe : ∀ fs k, ∀ p ∈ (wanted pfx dest stream).map Prod.snd,
      ∀ q ∈ (wanted pfx dest stream).map Prod.snd, q ≠ p → fileExists env fs q = false →
        fileExists env (env.FGetObject fs b k p).1 q = false)
    (hdistinct : ((wanted pfx dest stream).map Prod.snd).Nodup) :
    fetchesOf (downloadLoop env b pfx dest err stream fs).1 = wanted pfx dest stream
      ∧ statsOf (downloadLoop env b pfx dest err stream fs).1
        = (wanted pfx dest stream).map Prod.snd := by
  induction stream generalizing fs with
  | nil => exact ⟨rfl, rfl⟩
  | cons o rest ih =>
    have ho : o.Err = none := herr o (List.mem_cons_self _ _)
    have hr : ∀ x ∈ rest, x.Err = none := fun x hx => herr x (List.mem_cons_of_mem _ hx)
    by_cases hs : o.Size = 0
    · have hw : wanted pfx dest (o :: rest) = wanted pfx dest rest := by
        simp [wanted, List.filter_cons, hs]
      rw [hw] at hdistinct habsent hframe ⊢
      rw [downloadLoop_cons_zero env b pfx dest err o rest fs ho hs]
      have := ih fs hr habsent hframe hdistinct
      simpa [fetchesOf, statsOf] using this
    · have hw : wanted pfx dest (o :: rest)
          = (o.Key, objToFileName o.Key pfx dest) :: wanted pfx dest rest := by
        simp [wanted, List.filter_cons, hs]
      rw [hw] at hdistinct habsent hframe ⊢
      rw [List.map_cons] at hdistinct habsent hframe
      rw [List.nodup_cons] at hdistinct
      have hex := habsent _ (List.mem_cons_self _ _)
      rw [downloadLoop_cons_fetch env b pfx dest err o rest fs ho hs hex]
      have hab : ∀ q ∈ (wanted pfx dest rest).map Prod.snd,
          fileExists env (env.FGetObject fs b o.Key (objToFileName o.Key pfx dest)).1 q
            = false := by
        intro q hq
        refine hframe fs o.Key _ (List.mem_cons_self _ _) q (List.mem_cons_of_mem _ hq) ?_
          (habsent q (List.mem_cons_of_mem _ hq))
        intro heq
        exact hdistinct.1 (heq ▸ hq)
      have hfr : ∀ fs k, ∀ p ∈ (wanted pfx dest rest).map Prod.snd,
          ∀ q ∈ (wanted pfx dest rest).map Prod.snd, q ≠ p → fileExists env fs q = false →
            fileExists env (env.FGetObject fs b k p).1 q = false :=
        fun fs k p hp q hq => hframe fs k p (List.mem_cons_of_mem _ hp) q (List.mem_cons_of_mem _ hq)
      have := ih _ hr hab hfr hdistinct.2
      have h1 := fetchesOf_fetchLog o.Key
        (env.FGetObject fs b o.Key (objToFileName o.Key pfx dest)).2
      have h2 := statsOf_fetchLog o.Key
        (env.FGetObject fs b o.Key (objToFileName o.Key pfx dest)).2
      simp only [fetchesOf, statsOf] at this h1 h2 ⊢
      simp [List.filterMap_cons, List.filterMap_append, this, h1, h2]

/-- C8 (amended): for an error-free listing whose records of nonzero size have
pairwise distinct target paths, none of which exists at the start, and where a
fetch to one of these target paths does not make another of them appear,
`download` fetches exactly the records of nonzero size, in stream order, each
to `objToFileName key prefix destination`, and its existence checks are
exactly those of these records, so a record of size zero is neither fetched
nor checked. Nothing is asked of the fetch at paths that are not targets: it
may create directories, and it may fail. -/
theorem download_fetches_nonzero {σ : Type} (env : Env σ) (b pfx dest : Str) (fs : σ)
    (herr : ∀ o ∈ env.ListObjectsV2 b pfx true, o.Err = none)
    (habsent : ∀ q ∈ (wanted pfx dest (env.ListObjectsV2 b pfx true)).map Prod.snd,
      fileExists env fs q = false)
    (hframe : ∀ fs k, ∀ p ∈ (wanted pfx dest (env.ListObjectsV2 b pfx true)).map Prod.snd,
      ∀ q ∈ (wanted pfx dest (env.ListObjectsV2 b pfx true)).map Prod.snd, q ≠ p →
        fileExists env fs q = false → fileExists env (env.FGetObject fs b k p).1 q = false)
    (hdistinct : ((wanted pfx dest (env.ListObjectsV2 b pfx true)).map Prod.snd).Nodup) :
    fetchesOf (download env b pfx dest fs).1 = wanted pfx dest (env.ListObjectsV2 b pfx true)
      ∧ statsOf (download env b pfx dest fs).1
        = (wanted pfx dest (env.ListObjectsV2 b pfx true)).map Prod.snd := by
  have := downloadLoop_fetches env b pfx dest none _ fs herr habsent hframe hdistinct
  unfold download
  simpa [fetchesOf, statsOf] using this

theorem dirEnv_frame (stream : List ObjectInfo) (failing : List Str) (fs : Files) (b k p q : Str)
    (hq : q ≠ p) (hpar : q ∉ parents p) (h : fileExists (dirEnv stream failing) fs q = false) :
    fileExists (dirEnv stream failing) ((dirEnv stream failing).FGetObject fs b k p).1 q
      = false := by
  have hmem : q ∉ fs := by
    intro hm
    simp [fileExists, dirEnv, IsNotExist, hm] at h
  by_cases hk : k ∈ failing
  · simp [fileExists, dirEnv, IsNotExist, hk, hmem, hpar]
  · simp [fileExists, dirEnv, IsNotExist, hk, hmem, hq, hpar]

/-- C8 (amended) on the scenario of the specification, with a fetch that
creates the directories on the way to its target: under `reports/` and into an
empty `/tmp`, `download` fetches `reports/2020/a.csv` to `/tmp/2020/a.csv` and
`reports/2021/b.csv` to `/tmp/2021/b.csv`, and checks these two paths only. -/
theorem download_fetches_nonzero_witness :
    fetchesOf (download (dirEnv reports []) "luxedigest".toList "reports/".toList
        "/tmp".toList emptyTmp).1
        = [("reports/2020/a.csv".toList, "/tmp/2020/a.csv".toList),
            ("reports/2021/b.csv".toList, "/tmp/2021/b.csv".toList)]
      ∧ statsOf (download (dirEnv reports []) "luxedigest".toList "reports/".toList
        "/tmp".toList emptyTmp).1
        = ["/tmp/2020/a.csv".toList, "/tmp/2021/b.csv".toList] :=
  download_fetches_nonzero (dirEnv reports []) "luxedigest".toList "reports/".toList
    "/tmp".toList emptyTmp (by decide) (by decide)
    (fun fs k p hp q hq hne h =>
      dirEnv_frame reports [] fs "luxedigest".toList k p q hne
        ((by decide : ∀ p ∈ (wanted "reports/".toList "/tmp".toList reports).map Prod.snd,
            ∀ q ∈ (wanted "reports/".toList "/tmp".toList reports).map Prod.snd,
              q ∉ parents p) p hp q hq) h)
    (by decide)

end S3Get
